import Mathlib

/-!
Verification of the streaming pitch/volume analysis core of the
instrument-analyzer application.

The repository contains three variants of the program:
* `instrument_analyzer_gui_clean.pyw`  (the "clean" variant),
* `instrument_analyzer_gui_backup.pyw` (the "backup" variant),
* an early PyAudio-based variant (the "original" variant).

The definitions below are shallow embeddings of the corresponding Python
functions.  Audio samples and frequencies are modelled as rationals `ℚ`
(the program does no float-rounding-sensitive work in the claims treated
here); the audio buffer, a `collections.deque`, is a `List ℚ`; NumPy
boolean-mask indexing over equal-length arrays is `zip`/`filter`;
`np.isnan` filtering is modelled by letting an `f0` entry be `Option ℚ`
with `none` playing the role of NaN.  Python's `try/except` around the
`librosa.pyin` call is modelled by taking the outcome of the call as an
`Except` value.
-/

namespace InstrumentAnalyzer

/-- `CHUNK = 1024`, samples per input block (both variants). -/
def CHUNK : ℕ := 1024

/-- `RATE = 44100`, sampling rate in Hz. -/
def RATE : ℕ := 44100

/-- `FRAME_LENGTH = CHUNK * 2`, pyin frame length (clean variant, line 120). -/
def FRAME_LENGTH : ℕ := CHUNK * 2

/-- `HOP_LENGTH = CHUNK`, frame advance (clean variant, line 121). -/
def HOP_LENGTH : ℕ := CHUNK

/-- `GAIN_MULTIPLIER = 10.0`, microphone gain (clean variant, line 122). -/
def GAIN_MULTIPLIER : ℚ := 10

/-- Maxlen of the audio deque: `deque(maxlen=CHUNK * 10)` (clean variant, line 158). -/
def BUFFER_MAXLEN : ℕ := CHUNK * 10

/-- `audio_data * GAIN_MULTIPLIER` (clean variant, line 460). -/
def gained (block : List ℚ) : List ℚ := block.map (fun x => x * GAIN_MULTIPLIER)

/-- Semantics of `deque(maxlen=m).extend(block)`: samples are appended one by
one and, once `m` elements are held, each further append evicts the leftmost
(oldest) element.  The result is the last `m` elements of `buf ++ block`. -/
def dequeExtend (maxlen : ℕ) (buf block : List ℚ) : List ℚ :=
  (buf ++ block).drop ((buf ++ block).length - maxlen)

/-- `self.audio_buffer.extend(audio_data)` in `audio_callback`
(clean variant, line 463), with the buffer built as `deque(maxlen=CHUNK * 10)`. -/
def audioBufferPush (buf block : List ℚ) : List ℚ :=
  dequeExtend BUFFER_MAXLEN buf block

/-- One iteration of the body of `_audio_loop` in the clean variant
(lines 479-486): when at least `FRAME_LENGTH` samples are buffered, the
oldest `FRAME_LENGTH` samples are copied out as the analysis segment and
`min(len(buffer), CHUNK)` oldest samples are popped from the left. -/
def audioLoopStep (buf : List ℚ) : Option (List ℚ) × List ℚ :=
  if FRAME_LENGTH ≤ buf.length then
    (some (buf.take FRAME_LENGTH), buf.drop (min buf.length CHUNK))
  else (none, buf)

/-- One iteration of the body of `_audio_loop` in the backup variant
(lines 873-885): `target_buffer_size = CHUNK * 2` samples are copied out
and then `target_buffer_size` samples are popped from the left. -/
def backupAudioLoopStep (buf : List ℚ) : Option (List ℚ) × List ℚ :=
  if CHUNK * 2 ≤ buf.length then
    (some (buf.take (CHUNK * 2)), buf.drop (CHUNK * 2))
  else (none, buf)

/-- One entry of the note-frequency table: `{frequency, western, japanese}`. -/
structure NoteInfo where
  western : String
  japanese : String
  frequency : ℚ
deriving Repr, DecidableEq

/-- `diff < min_diff` where `min_diff` starts as `float('inf')`, modelled by
`none`; every finite difference is below infinity. -/
def infLt (d : ℚ) : Option ℚ → Bool
  | none => true
  | some m => decide (d < m)

/-- The `for note_key, note_info in note_data["note_frequencies"].items()`
loop of `frequency_to_note`, carried state
`(min_diff, closest_note, closest_japanese, closest_freq)`. -/
def ftnAux (frequency : ℚ) :
    List NoteInfo → Option ℚ × String × String × ℚ → Option ℚ × String × String × ℚ
  | [], s => s
  | e :: rest, s =>
    if infLt (|e.frequency - frequency|) s.1 then
      ftnAux frequency rest (some (|e.frequency - frequency|), e.western, e.japanese, e.frequency)
    else
      ftnAux frequency rest s

/-- `frequency_to_note(frequency, note_data)` (identical in the clean variant,
lines 71-89, and the backup variant, lines 63-81): linear scan keeping the
entry of strictly smallest `abs(note_info["frequency"] - frequency)`;
non-positive input short-circuits to `("N/A", "N/A", 0.0)`. -/
def frequency_to_note (frequency : ℚ) (table : List NoteInfo) : String × String × ℚ :=
  if frequency ≤ 0 then ("N/A", "N/A", 0)
  else (ftnAux frequency table (none, "N/A", "N/A", 0)).2

/-- The embedded default table returned by `load_note_frequencies` in the
clean variant (lines 58-68) when reading `note_frequencies.json` fails. -/
def defaultNoteData : List NoteInfo :=
  [⟨"C4", "ド", 26163/100⟩,
   ⟨"D4", "レ", 29366/100⟩,
   ⟨"E4", "ミ", 32963/100⟩,
   ⟨"F4", "ファ", 34923/100⟩,
   ⟨"G4", "ソ", 392⟩,
   ⟨"A4", "ラ", 440⟩,
   ⟨"B4", "シ", 49388/100⟩]

/-- `load_note_frequencies()` of the clean variant: the outcome of reading
the external JSON file is passed in as an `Except`; on failure the embedded
default table is returned. -/
def load_note_frequencies (ext : Except String (List NoteInfo)) : List NoteInfo :=
  match ext with
  | .ok d => d
  | .error _ => defaultNoteData

/-- `load_note_frequencies()` of the backup variant (lines 53-60): on failure
it returns `{"note_frequencies": {}, ...}`, i.e. an empty table. -/
def backup_load_note_frequencies (ext : Except String (List NoteInfo)) : List NoteInfo :=
  match ext with
  | .ok d => d
  | .error _ => []

/-- `np.mean` of a list of rationals. -/
def npMean (l : List ℚ) : ℚ := l.sum / (l.length : ℚ)

/-- `np.median` of a list of rationals: sort; for odd length the middle
element, for even length the average of the two middle elements. -/
def npMedian (l : List ℚ) : ℚ :=
  if l.length % 2 = 1 then (l.insertionSort (· ≤ ·)).getD (l.length / 2) 0
  else ((l.insertionSort (· ≤ ·)).getD (l.length / 2 - 1) 0 +
        (l.insertionSort (· ≤ ·)).getD (l.length / 2) 0) / 2

/-- `valid_f0 = f0[~np.isnan(f0)]`: drop the NaN (`none`) entries. -/
def validF0 (f0s : List (Option ℚ)) : List ℚ := f0s.filterMap id

/-- `confidence_mask = voiced_probs > 0.5; confident_f0 = f0[confidence_mask]`:
boolean-mask indexing of `f0` by the per-sub-frame voicing probabilities. -/
def confidentF0 (f0s : List (Option ℚ)) (probs : List ℚ) : List (Option ℚ) :=
  ((f0s.zip probs).filter fun p => (1 : ℚ)/2 < p.2).map Prod.fst

/-- `confident_valid = confident_f0[~np.isnan(confident_f0)]`. -/
def confidentValid (f0s : List (Option ℚ)) (probs : List ℚ) : List ℚ :=
  (confidentF0 f0s probs).filterMap id

/-- The four analysis fields published by `_analyze_audio_segment`:
`current_f0`, `current_note`, `current_japanese_note`, `note_confidence`. -/
structure AnalysisResult where
  current_f0 : ℚ
  current_note : String
  current_japanese_note : String
  note_confidence : ℚ
deriving Repr, DecidableEq

/-- The unvoiced publication: `current_f0 = 0.0`, notes `"N/A"`,
`note_confidence = 0`. -/
def unvoicedResult : AnalysisResult := ⟨0, "N/A", "N/A", 0⟩

/-- `max(0, 100 - (freq_diff / closest_freq * 100 * k))` followed by
`min(100, confidence)`; the clean variant uses `k = 10` (line 545), the
backup variant `k = 16.7` (line 954). -/
def noteConfidence (k f0 closest_freq : ℚ) : ℚ :=
  min 100 (max 0 (100 - |f0 - closest_freq| / closest_freq * 100 * k))

/-- The `if closest_freq > 0: ... else: self.note_confidence = 0` guard
around the confidence formula (clean variant lines 543-548, backup
variant lines 950-957). -/
def noteConfidenceStep (k f0 closest_freq : ℚ) : ℚ :=
  if 0 < closest_freq then noteConfidence k f0 closest_freq else 0

/-- `_analyze_audio_segment` of the clean variant (lines 505-566) after a
successful `librosa.pyin` call returning per-sub-frame `f0` values and
voicing probabilities: keep sub-frames with probability above `0.5`, drop
NaNs, aggregate by `np.median`, gate to the band `[75, 1200]`, then map to
the nearest note with the `k = 10` confidence formula. -/
def analyze_audio_segment_ok (f0s : List (Option ℚ)) (probs : List ℚ)
    (table : List NoteInfo) : AnalysisResult :=
  if 0 < (validF0 f0s).length then
    if 0 < (confidentValid f0s probs).length then
      if 75 ≤ npMedian (confidentValid f0s probs) ∧ npMedian (confidentValid f0s probs) ≤ 1200 then
        ⟨npMedian (confidentValid f0s probs),
         (frequency_to_note (npMedian (confidentValid f0s probs)) table).1,
         (frequency_to_note (npMedian (confidentValid f0s probs)) table).2.1,
         noteConfidenceStep 10 (npMedian (confidentValid f0s probs))
           (frequency_to_note (npMedian (confidentValid f0s probs)) table).2.2⟩
      else unvoicedResult
    else unvoicedResult
  else unvoicedResult

/-- The aggregation of the backup variant's `_analyze_audio_segment`
(lines 923-935): `avg = np.mean(valid)`, refined to
`np.mean(confident_valid)` when the probability array is non-empty and
confident sub-frames survive. -/
def backupDetectedF0 (f0s : List (Option ℚ)) (probs : List ℚ) : ℚ :=
  if 0 < probs.length then
    if 0 < (confidentF0 f0s probs).length then
      if 0 < (confidentValid f0s probs).length then npMean (confidentValid f0s probs)
      else npMean (validF0 f0s)
    else npMean (validF0 f0s)
  else npMean (validF0 f0s)

/-- `_analyze_audio_segment` of the backup variant (lines 903-974) after a
successful `librosa.pyin` call: mean aggregation (`backupDetectedF0`), band
gate `[75, 1200]`, nearest note, `k = 16.7` confidence formula. -/
def backup_analyze_audio_segment_ok (f0s : List (Option ℚ)) (probs : List ℚ)
    (table : List NoteInfo) : AnalysisResult :=
  if 0 < (validF0 f0s).length then
    if 75 ≤ backupDetectedF0 f0s probs ∧ backupDetectedF0 f0s probs ≤ 1200 then
      ⟨backupDetectedF0 f0s probs,
       (frequency_to_note (backupDetectedF0 f0s probs) table).1,
       (frequency_to_note (backupDetectedF0 f0s probs) table).2.1,
       noteConfidenceStep (167/10) (backupDetectedF0 f0s probs)
         (frequency_to_note (backupDetectedF0 f0s probs) table).2.2⟩
    else unvoicedResult
  else unvoicedResult

/-- `_analyze_audio_segment` of the clean variant with its `try/except`:
the outcome of the `librosa.pyin` call is passed as an `Except`; the
`except` branch (lines 568-573) publishes the unvoiced result. -/
def analyze_audio_segment (pyin : Except String (List (Option ℚ) × List ℚ))
    (table : List NoteInfo) : AnalysisResult :=
  match pyin with
  | .error _ => unvoicedResult
  | .ok (f0s, probs) => analyze_audio_segment_ok f0s probs table

/-- `_analyze_audio_segment` of the backup variant with its `try/except`
(lines 974-979 publish the unvoiced result on any exception). -/
def backup_analyze_audio_segment (pyin : Except String (List (Option ℚ) × List ℚ))
    (table : List NoteInfo) : AnalysisResult :=
  match pyin with
  | .error _ => unvoicedResult
  | .ok (f0s, probs) => backup_analyze_audio_segment_ok f0s probs table

/-- `sqrt(mean(block ** 2))` squared, i.e. the mean of the squared samples;
the volume theorems take the RMS value `r` together with the hypothesis
`r ^ 2 = rmsSq block`, avoiding an irrational square root. -/
def rmsSq (block : List ℚ) : ℚ := (block.map (fun x => x ^ 2)).sum / (block.length : ℚ)

/-- `self.current_volume = min(100, int(volume * 100))` (clean variant,
line 467); Python `int()` truncates toward zero, which is `⌊·⌋` for the
non-negative RMS value. -/
def cleanVolume (rms : ℚ) : ℤ := min 100 ⌊rms * 100⌋

/-- `self.current_volume = int(min(rms * 200, 100))` (original PyAudio
variant, line 175); `int()` is `⌊·⌋` for the non-negative argument. -/
def originalVolume (rms : ℚ) : ℤ := ⌊min (rms * 200) 100⌋

/-! ## Helper lemmas -/

theorem dequeExtend_length (maxlen : ℕ) (buf block : List ℚ) :
    (dequeExtend maxlen buf block).length = min (buf.length + block.length) maxlen := by
  simp [dequeExtend]
  omega

theorem dequeExtend_suffix (maxlen : ℕ) (buf block : List ℚ) :
    dequeExtend maxlen buf block <:+ buf ++ block :=
  List.drop_suffix _ _

theorem foldl_audioBufferPush_le (blocks : List (List ℚ)) :
    ∀ init : List ℚ, init.length ≤ BUFFER_MAXLEN →
      (blocks.foldl audioBufferPush init).length ≤ BUFFER_MAXLEN := by
  induction blocks with
  | nil => intro init h; simpa using h
  | cons b bs ih =>
    intro init _
    simp only [List.foldl_cons]
    refine ih _ ?_
    rw [audioBufferPush, dequeExtend_length]
    omega

theorem mem_validF0_of_mem_confidentValid {f0s : List (Option ℚ)} {probs : List ℚ} {x : ℚ}
    (hx : x ∈ confidentValid f0s probs) : x ∈ validF0 f0s := by
  rcases List.mem_filterMap.mp hx with ⟨a, ha, haeq⟩
  rcases List.mem_map.mp ha with ⟨pr, hpr, hpr1⟩
  have hz : pr ∈ f0s.zip probs := (List.mem_filter.mp hpr).1
  have h1 : pr.1 ∈ f0s := (List.of_mem_zip (by simpa using hz)).1
  have ha' : a = some x := haeq
  rw [← hpr1] at ha'
  rw [ha'] at h1
  exact List.mem_filterMap.mpr ⟨some x, h1, rfl⟩

theorem probs_mem_of_mem_confidentValid {f0s : List (Option ℚ)} {probs : List ℚ} {x : ℚ}
    (hx : x ∈ confidentValid f0s probs) : ∃ p, p ∈ probs := by
  rcases List.mem_filterMap.mp hx with ⟨a, ha, _⟩
  rcases List.mem_map.mp ha with ⟨pr, hpr, _⟩
  have hz : pr ∈ f0s.zip probs := (List.mem_filter.mp hpr).1
  exact ⟨pr.2, (List.of_mem_zip (by simpa using hz)).2⟩

theorem validF0_pos_of_confidentValid_ne {f0s : List (Option ℚ)} {probs : List ℚ}
    (h : confidentValid f0s probs ≠ []) : 0 < (validF0 f0s).length := by
  rcases List.exists_mem_of_ne_nil _ h with ⟨x, hx⟩
  exact List.length_pos.mpr (List.ne_nil_of_mem (mem_validF0_of_mem_confidentValid hx))

theorem probs_pos_of_confidentValid_ne {f0s : List (Option ℚ)} {probs : List ℚ}
    (h : confidentValid f0s probs ≠ []) : 0 < probs.length := by
  rcases List.exists_mem_of_ne_nil _ h with ⟨x, hx⟩
  rcases probs_mem_of_mem_confidentValid hx with ⟨p, hp⟩
  exact List.length_pos.mpr (List.ne_nil_of_mem hp)

theorem confidentF0_pos_of_confidentValid_ne {f0s : List (Option ℚ)} {probs : List ℚ}
    (h : confidentValid f0s probs ≠ []) : 0 < (confidentF0 f0s probs).length := by
  rcases List.exists_mem_of_ne_nil _ h with ⟨x, hx⟩
  rcases List.mem_filterMap.mp hx with ⟨a, ha, _⟩
  exact List.length_pos.mpr (List.ne_nil_of_mem ha)

theorem backupDetectedF0_eq_mean {f0s : List (Option ℚ)} {probs : List ℚ}
    (h : confidentValid f0s probs ≠ []) :
    backupDetectedF0 f0s probs = npMean (confidentValid f0s probs) := by
  unfold backupDetectedF0
  rw [if_pos (probs_pos_of_confidentValid_ne h),
    if_pos (confidentF0_pos_of_confidentValid_ne h),
    if_pos (List.length_pos.mpr h)]

theorem ftnAux_state_spec (f : ℚ) (l : List NoteInfo) :
    ∀ (m : ℚ) (w j : String) (cf : ℚ),
      (ftnAux f l (some m, w, j, cf) = (some m, w, j, cf) ∧ ∀ e ∈ l, m ≤ |e.frequency - f|) ∨
      (∃ i : ℕ, ∃ hi : i < l.length,
        ftnAux f l (some m, w, j, cf) =
          (some (|(l.get ⟨i, hi⟩).frequency - f|), (l.get ⟨i, hi⟩).western,
           (l.get ⟨i, hi⟩).japanese, (l.get ⟨i, hi⟩).frequency) ∧
        |(l.get ⟨i, hi⟩).frequency - f| < m ∧
        (∀ e ∈ l, |(l.get ⟨i, hi⟩).frequency - f| ≤ |e.frequency - f|) ∧
        (∀ k, ∀ hk : k < l.length, k < i →
          |(l.get ⟨i, hi⟩).frequency - f| < |(l.get ⟨k, hk⟩).frequency - f|)) := by
  induction l with
  | nil =>
    intro m w j cf
    exact Or.inl ⟨rfl, by simp⟩
  | cons e rest ih =>
    intro m w j cf
    by_cases hd : |e.frequency - f| < m
    · have hstep : ftnAux f (e :: rest) (some m, w, j, cf) =
          ftnAux f rest (some (|e.frequency - f|), e.western, e.japanese, e.frequency) := by
        simp [ftnAux, infLt, hd]
      rcases ih (|e.frequency - f|) e.western e.japanese e.frequency with
        ⟨heq, hmin⟩ | ⟨i, hi, heq, hlt, hmin, hfirst⟩
      · refine Or.inr ⟨0, by simp, ?_, hd, ?_, ?_⟩
        · rw [hstep, heq]; rfl
        · intro x hx
          rcases List.mem_cons.mp hx with rfl | hx
          · exact le_refl _
          · exact hmin x hx
        · intro k hk hk0
          omega
      · refine Or.inr ⟨i + 1, Nat.succ_lt_succ hi, ?_, lt_trans hlt hd, ?_, ?_⟩
        · rw [hstep, heq]; rfl
        · intro x hx
          rcases List.mem_cons.mp hx with rfl | hx
          · exact le_of_lt hlt
          · exact hmin x hx
        · intro k hk hksucc
          match k with
          | 0 => exact lt_of_lt_of_le hlt (le_refl _)
          | Nat.succ k' => exact hfirst k' (Nat.lt_of_succ_lt_succ hk) (Nat.lt_of_succ_lt_succ hksucc)
    · have hstep : ftnAux f (e :: rest) (some m, w, j, cf) =
          ftnAux f rest (some m, w, j, cf) := by
        simp [ftnAux, infLt, hd]
      rcases ih m w j cf with ⟨heq, hmin⟩ | ⟨i, hi, heq, hlt, hmin, hfirst⟩
      · refine Or.inl ⟨by rw [hstep, heq], ?_⟩
        intro x hx
        rcases List.mem_cons.mp hx with rfl | hx
        · exact le_of_not_lt hd
        · exact hmin x hx
      · refine Or.inr ⟨i + 1, Nat.succ_lt_succ hi, ?_, hlt, ?_, ?_⟩
        · rw [hstep, heq]; rfl
        · intro x hx
          rcases List.mem_cons.mp hx with rfl | hx
          · exact le_of_lt (lt_of_lt_of_le hlt (le_of_not_lt hd))
          · exact hmin x hx
        · intro k hk hksucc
          match k with
          | 0 => exact lt_of_lt_of_le hlt (le_of_not_lt hd)
          | Nat.succ k' => exact hfirst k' (Nat.lt_of_succ_lt_succ hk) (Nat.lt_of_succ_lt_succ hksucc)

theorem confidentValid_example_eval :
    confidentValid [some (100 : ℚ), some 100, some 400] [1, 1, 1] = [100, 100, 400] := by
  norm_num [confidentValid, confidentF0, List.zip, List.zipWith, List.filter, List.filterMap_cons]

/-! ## Claim theorems -/

/-- Claim C1, amended.  In the clean variant's analysis loop, every cycle
with at least `FRAME_LENGTH` buffered samples extracts the `FRAME_LENGTH`
oldest samples as the analysis window and then discards exactly
`HOP_LENGTH` oldest samples, so consecutive windows overlap and advance by
exactly `HOP_LENGTH` regardless of the producer's block size.  The backup
variant's loop also extracts `FRAME_LENGTH` samples but discards the full
`FRAME_LENGTH`, so its consecutive windows do not overlap. -/
theorem c1_framer_advance (buf : List ℚ) (h : FRAME_LENGTH ≤ buf.length) :
    (audioLoopStep buf).1 = some (buf.take FRAME_LENGTH) ∧
    ((audioLoopStep buf).1.getD []).length = FRAME_LENGTH ∧
    (audioLoopStep buf).2 = buf.drop HOP_LENGTH ∧
    ((audioLoopStep buf).2).length = buf.length - HOP_LENGTH ∧
    (backupAudioLoopStep buf).1 = some (buf.take FRAME_LENGTH) ∧
    (backupAudioLoopStep buf).2 = buf.drop FRAME_LENGTH ∧
    (FRAME_LENGTH + HOP_LENGTH ≤ buf.length →
      (audioLoopStep ((audioLoopStep buf).2)).1 =
        some ((buf.drop HOP_LENGTH).take FRAME_LENGTH) ∧
      (buf.take FRAME_LENGTH).drop HOP_LENGTH =
        ((buf.drop HOP_LENGTH).take FRAME_LENGTH).take (FRAME_LENGTH - HOP_LENGTH)) := by
  have hCH : CHUNK ≤ buf.length := le_trans (by norm_num [FRAME_LENGTH, CHUNK]) h
  have hmin : min buf.length CHUNK = CHUNK := min_eq_right hCH
  have hstep1 : audioLoopStep buf = (some (buf.take FRAME_LENGTH), buf.drop HOP_LENGTH) := by
    rw [audioLoopStep, if_pos h, hmin]
    rfl
  have hstep2 : backupAudioLoopStep buf = (some (buf.take FRAME_LENGTH), buf.drop FRAME_LENGTH) := by
    rw [backupAudioLoopStep, if_pos (show CHUNK * 2 ≤ buf.length from h)]
    rfl
  refine ⟨by rw [hstep1], ?_, by rw [hstep1], ?_, by rw [hstep2], by rw [hstep2], ?_⟩
  · rw [hstep1]
    simp [List.length_take, min_eq_left h]
  · rw [hstep1]
    simp [List.length_drop]
  · intro h2
    constructor
    · rw [hstep1, audioLoopStep, if_pos]
      simp only [List.length_drop]
      have : HOP_LENGTH ≤ buf.length := le_trans (by norm_num [FRAME_LENGTH, HOP_LENGTH, CHUNK]) h
      omega
    · have harith : HOP_LENGTH + (FRAME_LENGTH - HOP_LENGTH) = FRAME_LENGTH := by
        norm_num [FRAME_LENGTH, HOP_LENGTH, CHUNK]
      conv_rhs => rw [List.take_take, min_eq_left (Nat.sub_le _ _), List.take_drop, harith]

/-- Witness for Claim C1 at a concrete buffer of 3072 samples. -/
theorem c1_framer_advance_witness :
    FRAME_LENGTH ≤ (List.replicate 3072 (0 : ℚ)).length ∧
    (audioLoopStep (List.replicate 3072 (0 : ℚ))).2 = (List.replicate 3072 (0 : ℚ)).drop HOP_LENGTH :=
  ⟨by rw [List.length_replicate]; norm_num [FRAME_LENGTH, CHUNK],
   (c1_framer_advance _ (by rw [List.length_replicate]; norm_num [FRAME_LENGTH, CHUNK])).2.2.1⟩

/-- Counterexample to Claim C1 as stated: the backup variant's loop, on a
buffer of exactly `FRAME_LENGTH = 2048` samples, leaves an empty buffer —
it discards all 2048 samples rather than only `HOP_LENGTH = 1024`. -/
theorem c1_counterexample :
    ((backupAudioLoopStep (List.replicate 2048 (0 : ℚ))).2).length ≠
      (List.replicate 2048 (0 : ℚ)).length - HOP_LENGTH := by
  rw [backupAudioLoopStep,
    if_pos (show CHUNK * 2 ≤ (List.replicate 2048 (0 : ℚ)).length by
      rw [List.length_replicate]; norm_num [CHUNK])]
  rw [List.length_drop, List.length_replicate]
  norm_num [CHUNK, HOP_LENGTH]

/-- Claim C2, amended.  When at least one sub-frame estimate survives the
voicing filter, the clean variant reports the median of the survivors as
the aggregate f0 (when it passes the band gate), while the backup variant
reports their mean. -/
theorem c2_median_aggregation_amended (f0s : List (Option ℚ)) (probs : List ℚ)
    (table : List NoteInfo) (hcv : confidentValid f0s probs ≠ []) :
    ((75 ≤ npMedian (confidentValid f0s probs) ∧ npMedian (confidentValid f0s probs) ≤ 1200) →
      (analyze_audio_segment_ok f0s probs table).current_f0 = npMedian (confidentValid f0s probs)) ∧
    ((75 ≤ npMean (confidentValid f0s probs) ∧ npMean (confidentValid f0s probs) ≤ 1200) →
      (backup_analyze_audio_segment_ok f0s probs table).current_f0 =
        npMean (confidentValid f0s probs)) := by
  constructor
  · intro hband
    unfold analyze_audio_segment_ok
    rw [if_pos (validF0_pos_of_confidentValid_ne hcv), if_pos (List.length_pos.mpr hcv),
      if_pos hband]
  · intro hband
    have hd := backupDetectedF0_eq_mean hcv
    unfold backup_analyze_audio_segment_ok
    rw [hd, if_pos (validF0_pos_of_confidentValid_ne hcv), if_pos hband]

/-- Witness for Claim C2 on survivors `[100, 100, 400]`. -/
theorem c2_median_aggregation_amended_witness :
    confidentValid [some (100 : ℚ), some 100, some 400] [1, 1, 1] ≠ [] ∧
    (analyze_audio_segment_ok [some (100 : ℚ), some 100, some 400] [1, 1, 1]
        defaultNoteData).current_f0 =
      npMedian (confidentValid [some (100 : ℚ), some 100, some 400] [1, 1, 1]) := by
  have hne : confidentValid [some (100 : ℚ), some 100, some 400] [1, 1, 1] ≠ [] := by
    rw [confidentValid_example_eval]; simp
  have hband : 75 ≤ npMedian (confidentValid [some (100 : ℚ), some 100, some 400] [1, 1, 1]) ∧
      npMedian (confidentValid [some (100 : ℚ), some 100, some 400] [1, 1, 1]) ≤ 1200 := by
    rw [confidentValid_example_eval]
    constructor <;> norm_num [npMedian, List.insertionSort, List.orderedInsert]
  exact ⟨hne, (c2_median_aggregation_amended _ _ defaultNoteData hne).1 hband⟩

/-- Counterexample to Claim C2 as stated: on survivors `[100, 100, 400]`
(all with voicing probability 1) the backup variant publishes `200` — the
mean — which differs from the median `100`. -/
theorem c2_counterexample :
    (backup_analyze_audio_segment_ok [some (100 : ℚ), some 100, some 400] [1, 1, 1]
        defaultNoteData).current_f0 ≠
      npMedian (confidentValid [some (100 : ℚ), some 100, some 400] [1, 1, 1]) := by
  have hne : confidentValid [some (100 : ℚ), some 100, some 400] [1, 1, 1] ≠ [] := by
    rw [confidentValid_example_eval]; simp
  have hmean : npMean ([100, 100, 400] : List ℚ) = 200 := by norm_num [npMean]
  have hmed : npMedian ([100, 100, 400] : List ℚ) = 100 := by
    norm_num [npMedian, List.insertionSort, List.orderedInsert]
  have hd : backupDetectedF0 [some (100 : ℚ), some 100, some 400] [1, 1, 1] = 200 := by
    rw [backupDetectedF0_eq_mean hne, confidentValid_example_eval, hmean]
  have hv : 0 < (validF0 [some (100 : ℚ), some 100, some 400]).length := by
    norm_num [validF0, List.filterMap_cons]
  unfold backup_analyze_audio_segment_ok
  rw [hd, confidentValid_example_eval, hmed, if_pos hv, if_pos (by norm_num)]
  norm_num

/-- Claim C3: for every sequence of pushed blocks the audio ring buffer
(`deque(maxlen=CHUNK * 10)`) never holds more than `CHUNK * 10` samples, a
push that overflows evicts the oldest samples first (the surviving content
is a suffix of old-content ++ block, preserving order), and the length
after a push is exactly `min (old + pushed) capacity`. -/
theorem c3_ring_buffer_bounded_fifo :
    (∀ blocks : List (List ℚ), (blocks.foldl audioBufferPush []).length ≤ BUFFER_MAXLEN) ∧
    (∀ buf block : List ℚ, audioBufferPush buf block <:+ buf ++ block) ∧
    (∀ buf block : List ℚ,
      (audioBufferPush buf block).length = min (buf.length + block.length) BUFFER_MAXLEN) :=
  ⟨fun blocks => foldl_audioBufferPush_le blocks [] (by simp),
   fun buf block => dequeExtend_suffix _ buf block,
   fun buf block => dequeExtend_length _ buf block⟩

/-- Claim C4: if the pitch algorithm raises (the `Except.error` outcome of
the `librosa.pyin` call), `_analyze_audio_segment` of either variant
catches it and publishes the unvoiced result `(0, "N/A", "N/A", 0)`;
the analysis function is total, so no exception propagates. -/
theorem c4_analysis_catches_errors (e : String) (table : List NoteInfo) :
    analyze_audio_segment (Except.error e) table = ⟨0, "N/A", "N/A", 0⟩ ∧
    backup_analyze_audio_segment (Except.error e) table = ⟨0, "N/A", "N/A", 0⟩ :=
  ⟨rfl, rfl⟩

/-- Claim C5: in the clean variant, if no sub-frame estimate survives the
voicing filter, or the aggregated (median) f0 lies outside the band
`[75, 1200]`, the published result is unvoiced: `current_f0 = 0`, notes
`"N/A"`, `note_confidence = 0`. -/
theorem c5_unvoiced_gate (f0s : List (Option ℚ)) (probs : List ℚ) (table : List NoteInfo)
    (h : confidentValid f0s probs = [] ∨
      npMedian (confidentValid f0s probs) < 75 ∨ 1200 < npMedian (confidentValid f0s probs)) :
    analyze_audio_segment_ok f0s probs table = unvoicedResult := by
  by_cases hv : 0 < (validF0 f0s).length
  · by_cases hcv : 0 < (confidentValid f0s probs).length
    · have hcv' : confidentValid f0s probs ≠ [] := by
        intro hnil
        rw [hnil] at hcv
        simp at hcv
      have hband : ¬ (75 ≤ npMedian (confidentValid f0s probs) ∧
          npMedian (confidentValid f0s probs) ≤ 1200) := by
        rcases h with h | h | h
        · exact absurd h hcv'
        · rintro ⟨h1, -⟩; linarith
        · rintro ⟨-, h2⟩; linarith
      rw [analyze_audio_segment_ok, if_pos hv, if_pos hcv, if_neg hband]
    · rw [analyze_audio_segment_ok, if_pos hv, if_neg hcv]
  · rw [analyze_audio_segment_ok, if_neg hv]

/-- Witness for Claim C5: a single surviving estimate of 50 Hz is below the
band and is reported unvoiced. -/
theorem c5_unvoiced_gate_witness :
    (confidentValid [some (50 : ℚ)] [1] = [] ∨
      npMedian (confidentValid [some (50 : ℚ)] [1]) < 75 ∨
      1200 < npMedian (confidentValid [some (50 : ℚ)] [1])) ∧
    analyze_audio_segment_ok [some (50 : ℚ)] [1] defaultNoteData = unvoicedResult := by
  have h : npMedian (confidentValid [some (50 : ℚ)] [1]) < 75 := by
    norm_num [confidentValid, confidentF0, npMedian, List.zip, List.zipWith, List.filter,
      List.filterMap_cons, List.insertionSort, List.orderedInsert]
  exact ⟨Or.inr (Or.inl h), c5_unvoiced_gate _ _ _ (Or.inr (Or.inl h))⟩

/-- Claim C6: for every `f > 0` and non-empty table, `frequency_to_note`
returns the fields of a table entry whose distance `|frequency - f|` is
minimal over the table, and every strictly earlier entry has strictly
larger distance — so on ties the first minimum in iteration order wins and
the result is deterministic for a fixed table order. -/
theorem c6_nearest_note (f : ℚ) (table : List NoteInfo) (hf : 0 < f) (hne : table ≠ []) :
    ∃ i : ℕ, ∃ hi : i < table.length,
      frequency_to_note f table =
        ((table.get ⟨i, hi⟩).western, (table.get ⟨i, hi⟩).japanese,
         (table.get ⟨i, hi⟩).frequency) ∧
      (∀ e ∈ table, |(table.get ⟨i, hi⟩).frequency - f| ≤ |e.frequency - f|) ∧
      (∀ k, ∀ hk : k < table.length, k < i →
        |(table.get ⟨i, hi⟩).frequency - f| < |(table.get ⟨k, hk⟩).frequency - f|) := by
  match table, hne with
  | e :: rest, _ =>
    have hstep : frequency_to_note f (e :: rest) =
        (ftnAux f rest (some (|e.frequency - f|), e.western, e.japanese, e.frequency)).2 := by
      rw [frequency_to_note, if_neg (not_le.mpr hf)]
      congr 1
    rcases ftnAux_state_spec f rest (|e.frequency - f|) e.western e.japanese e.frequency with
      ⟨heq, hmin⟩ | ⟨i, hi, heq, hlt, hmin, hfirst⟩
    · refine ⟨0, by simp, ?_, ?_, ?_⟩
      · rw [hstep, heq]; rfl
      · intro x hx
        rcases List.mem_cons.mp hx with rfl | hx
        · exact le_refl _
        · exact hmin x hx
      · intro k hk hk0
        omega
    · refine ⟨i + 1, Nat.succ_lt_succ hi, ?_, ?_, ?_⟩
      · rw [hstep, heq]; rfl
      · intro x hx
        rcases List.mem_cons.mp hx with rfl | hx
        · exact le_of_lt hlt
        · exact hmin x hx
      · intro k hk hksucc
        match k with
        | 0 => exact hlt
        | Nat.succ k' => exact hfirst k' (Nat.lt_of_succ_lt_succ hk) (Nat.lt_of_succ_lt_succ hksucc)

/-- Witness for Claim C6 at `f = 440` against the default table. -/
theorem c6_nearest_note_witness :
    0 < (440 : ℚ) ∧ defaultNoteData ≠ [] ∧
    (∃ i : ℕ, ∃ hi : i < defaultNoteData.length,
      frequency_to_note 440 defaultNoteData =
        ((defaultNoteData.get ⟨i, hi⟩).western, (defaultNoteData.get ⟨i, hi⟩).japanese,
         (defaultNoteData.get ⟨i, hi⟩).frequency) ∧
      (∀ e ∈ defaultNoteData,
        |(defaultNoteData.get ⟨i, hi⟩).frequency - 440| ≤ |e.frequency - 440|) ∧
      (∀ k, ∀ hk : k < defaultNoteData.length, k < i →
        |(defaultNoteData.get ⟨i, hi⟩).frequency - 440| <
          |(defaultNoteData.get ⟨k, hk⟩).frequency - 440|)) :=
  ⟨by norm_num, by simp [defaultNoteData],
   c6_nearest_note 440 defaultNoteData (by norm_num) (by simp [defaultNoteData])⟩

/-- Claim C7: with positive `closest_freq` the published note confidence is
`max 0 (100 - |f0 - closest| / closest * 100 * k)` (the outer `min 100`
clamp is redundant but keeps the value in `[0, 100]`), it is exactly 100
at an exact match, and it is antitone in the distance `|f0 - closest|`. -/
theorem c7_confidence_formula (k f0 closest_freq : ℚ) (hk : 0 ≤ k) (hc : 0 < closest_freq) :
    noteConfidence k f0 closest_freq =
      max 0 (100 - |f0 - closest_freq| / closest_freq * 100 * k) ∧
    0 ≤ noteConfidence k f0 closest_freq ∧
    noteConfidence k f0 closest_freq ≤ 100 ∧
    (f0 = closest_freq → noteConfidence k f0 closest_freq = 100) ∧
    (∀ g0 g1 : ℚ, |g0 - closest_freq| ≤ |g1 - closest_freq| →
      noteConfidence k g1 closest_freq ≤ noteConfidence k g0 closest_freq) := by
  have key : ∀ g : ℚ, 0 ≤ |g - closest_freq| / closest_freq * 100 * k := by
    intro g
    positivity
  unfold noteConfidence
  refine ⟨min_eq_right (max_le (by norm_num) (by linarith [key f0])),
    le_min (by norm_num) (le_max_left _ _), min_le_left _ _, ?_, ?_⟩
  · intro h
    rw [h]
    norm_num
  · intro g0 g1 h
    have hmono : |g0 - closest_freq| / closest_freq * 100 * k ≤
        |g1 - closest_freq| / closest_freq * 100 * k := by
      gcongr
    exact min_le_min (le_refl _) (max_le_max (le_refl _) (by linarith))

/-- Witness for Claim C7: `k = 10`, exact match at 440 Hz gives 100. -/
theorem c7_confidence_formula_witness :
    0 ≤ (10 : ℚ) ∧ 0 < (440 : ℚ) ∧ noteConfidence 10 440 440 = 100 :=
  ⟨by norm_num, by norm_num,
   (c7_confidence_formula 10 440 440 (by norm_num) (by norm_num)).2.2.2.1 rfl⟩

/-- Claim C8, amended.  The published volume is
`min(100, int(rms * SCALE))` where `int` truncates (floor, since the RMS
is non-negative) — not `round` — with `SCALE = 100` in the clean variant
and `SCALE = 200` (clamp before truncation, same value) in the original
variant; it always lies in `[0, 100]`, and the spec's example values
(RMS 0.5 with SCALE 200 gives 100, RMS 0.1 gives 20) hold. -/
theorem c8_volume_amended (block : List ℚ) (r : ℚ) (hr : 0 ≤ r) (_hrms : r ^ 2 = rmsSq block) :
    cleanVolume r = min 100 ⌊r * 100⌋ ∧
    0 ≤ cleanVolume r ∧ cleanVolume r ≤ 100 ∧
    originalVolume r = min 100 ⌊r * 200⌋ ∧
    0 ≤ originalVolume r ∧ originalVolume r ≤ 100 ∧
    (r = 1/2 → originalVolume r = 100) ∧
    (r = 1/10 → originalVolume r = 20) := by
  have h100 : ⌊(100 : ℚ)⌋ = 100 := by norm_num
  refine ⟨rfl, ?_, min_le_left _ _, ?_, ?_, ?_, ?_, ?_⟩
  · exact le_min (by norm_num) (Int.floor_nonneg.mpr (by positivity))
  · by_cases hcase : r * 200 ≤ 100
    · rw [originalVolume, min_eq_left hcase, min_eq_right]
      rw [← h100]
      exact Int.floor_le_floor hcase
    · push_neg at hcase
      rw [originalVolume, min_eq_right (le_of_lt hcase), h100, eq_comm, min_eq_left]
      rw [Int.le_floor]
      push_cast
      linarith
  · rw [originalVolume]
    exact Int.floor_nonneg.mpr (le_min (by positivity) (by norm_num))
  · rw [originalVolume, ← h100]
    exact Int.floor_le_floor (min_le_right _ _)
  · intro hr2
    rw [hr2, originalVolume]
    norm_num
  · intro hr2
    rw [hr2, originalVolume]
    norm_num

/-- Witness for Claim C8: a single-sample block of amplitude 1/2 has RMS
1/2 and the original variant publishes the clamped volume 100. -/
theorem c8_volume_amended_witness :
    0 ≤ (1/2 : ℚ) ∧ ((1/2 : ℚ)) ^ 2 = rmsSq [(1/2 : ℚ)] ∧ originalVolume (1/2) = 100 :=
  ⟨by norm_num, by norm_num [rmsSq],
   (c8_volume_amended [(1/2 : ℚ)] (1/2) (by norm_num) (by norm_num [rmsSq])).2.2.2.2.2.2.1 rfl⟩

/-- Counterexample to Claim C8 as stated: at RMS `0.206` the clean variant
publishes `min(100, int(20.6)) = 20`, while `min(100, round(20.6)) = 21`. -/
theorem c8_counterexample :
    cleanVolume (103/500) ≠ min 100 (round ((103/500 : ℚ) * 100)) := by
  have h1 : cleanVolume (103/500) = 20 := by
    rw [cleanVolume]
    norm_num [Int.floor_eq_iff]
  have h2 : round ((103/500 : ℚ) * 100) = 21 := by
    norm_num [round_eq, Int.floor_eq_iff]
  rw [h1, h2]
  norm_num

/-- Claim C9, amended.  In the clean variant a load failure falls back to
the embedded default table, which is non-empty, holds exactly the 7
natural notes C4-B4, and has only positive frequencies; the backup
variant instead falls back to an empty table. -/
theorem c9_fallback_amended (e : String) :
    load_note_frequencies (Except.error e) = defaultNoteData ∧
    defaultNoteData ≠ [] ∧
    defaultNoteData.length = 7 ∧
    defaultNoteData.map NoteInfo.western = ["C4", "D4", "E4", "F4", "G4", "A4", "B4"] ∧
    (∀ n ∈ defaultNoteData, 0 < n.frequency) ∧
    backup_load_note_frequencies (Except.error e) = [] := by
  refine ⟨rfl, by simp [defaultNoteData], rfl, rfl, ?_, rfl⟩
  intro n hn
  simp only [defaultNoteData, List.mem_cons, List.not_mem_nil, or_false] at hn
  rcases hn with rfl | rfl | rfl | rfl | rfl | rfl | rfl <;> norm_num

/-- Counterexample to Claim C9 as stated: the backup variant's
load-failure fallback is the empty table, not a table containing the 7
natural notes. -/
theorem c9_counterexample :
    backup_load_note_frequencies (Except.error "Failed to load note frequencies") = [] := rfl

/-- Claim C10: with an empty note table (the backup variant's fallback
state) `frequency_to_note` still returns `("N/A", "N/A", 0)` for every
positive frequency, the caller's `closest_freq > 0` guard yields
confidence 0 instead of dividing by zero, and the backup per-window
analysis on an empty table always publishes note `"N/A"` with
confidence 0. -/
theorem c10_empty_table_no_note (f : ℚ) (hf : 0 < f) :
    frequency_to_note f [] = ("N/A", "N/A", 0) ∧
    noteConfidenceStep (167/10) f 0 = 0 ∧
    (∀ f0s probs, (backup_analyze_audio_segment_ok f0s probs []).current_note = "N/A" ∧
      (backup_analyze_audio_segment_ok f0s probs []).note_confidence = 0) := by
  have hempty : ∀ g : ℚ, 0 < g → frequency_to_note g [] = ("N/A", "N/A", 0) := by
    intro g hg
    rw [frequency_to_note, if_neg (not_le.mpr hg)]
    rfl
  refine ⟨hempty f hf, ?_, ?_⟩
  · rw [noteConfidenceStep, if_neg (lt_irrefl 0)]
  · intro f0s probs
    unfold backup_analyze_audio_segment_ok
    by_cases hv : 0 < (validF0 f0s).length
    · rw [if_pos hv]
      by_cases hband : 75 ≤ backupDetectedF0 f0s probs ∧ backupDetectedF0 f0s probs ≤ 1200
      · rw [if_pos hband]
        have hpos : 0 < backupDetectedF0 f0s probs := lt_of_lt_of_le (by norm_num) hband.1
        rw [hempty _ hpos]
        exact ⟨rfl, by simp [noteConfidenceStep]⟩
      · rw [if_neg hband]
        exact ⟨rfl, rfl⟩
    · rw [if_neg hv]
      exact ⟨rfl, rfl⟩

/-- Witness for Claim C10 at `f = 440`. -/
theorem c10_empty_table_no_note_witness :
    0 < (440 : ℚ) ∧ frequency_to_note 440 [] = ("N/A", "N/A", 0) :=
  ⟨by norm_num, (c10_empty_table_no_note 440 (by norm_num)).1⟩

end InstrumentAnalyzer
